import Mathlib

/-!
# Verification of the orphaned-upload cleanup subsystem

Shallow embedding of the cleanup service of the `wizzzey-api` repository
(`src/services/cleanupService.js`, together with the admin endpoints in
`src/controllers/appSettings.ct.js`), and proofs of the spec's claims
about it.

Conventions of the embedding:
* JS `string | null | undefined` fields become `Option String`; the JS
  truthiness test `if (x)` on such a field becomes a match on the option
  plus an emptiness test on the string.
* JS `Set<string>` becomes a `List String` built with `setAdd`, which
  mirrors `Set.add` (insertion-ordered, no duplicates).
* An `async` function that can reject becomes a function into
  `Except Err _`; its external effects (database reads, `fs.readdir`,
  `fs.unlink`) are supplied as explicit inputs in a `RunEnv`.
-/

namespace Cleanup

/-- Error values carried by rejected promises (`error.message` in JS). -/
abbrev Err := String

/-! ## Reference Extractor (`extractFilenameFromUrl`) -/

/-- Node `path.posix.basename`, as implemented in Node's `path` module:
trailing `/` separators are stripped, then the segment after the last
remaining `/` is returned; a string consisting only of separators (or the
empty string) yields `""`. -/
def basename (s : String) : String :=
  let stripped := (s.data.reverse.dropWhile (fun c => c = '/')).reverse
  ⟨(stripped.reverse.takeWhile (fun c => c ≠ '/')).reverse⟩

/-- `url.startsWith('http')` from `extractFilenameFromUrl`. -/
def startsWithHttp (s : String) : Bool :=
  match s.data with
  | 'h' :: 't' :: 't' :: 'p' :: _ => true
  | _ => false

/-- Model of the WHATWG `new URL(input)` constructor restricted to what the
service feeds it (absolute URL strings, no base): returns the `pathname` on
success and `none` where the constructor throws `Invalid URL`.
A scheme (leading ASCII letters) followed by `:` is required; for the
special schemes `http`/`https` a `//` and a non-empty host must follow, and
the pathname is the part from the next `/` up to `?` or `#` (defaulting to
`/`); for other schemes the opaque path after `:` up to `?` or `#` is the
pathname. -/
def urlPathname (s : String) : Option String :=
  let cs := s.data
  let scheme := cs.takeWhile (fun c => c.isAlpha)
  match cs.drop scheme.length with
  | ':' :: r =>
    if scheme.isEmpty then none
    else
      let schemeStr : String := ⟨scheme.map Char.toLower⟩
      if schemeStr = "http" ∨ schemeStr = "https" then
        match r with
        | '/' :: '/' :: r2 =>
          let host := r2.takeWhile (fun c => c ≠ '/' ∧ c ≠ '?' ∧ c ≠ '#')
          if host.isEmpty then none
          else
            let after := r2.drop host.length
            let path := after.takeWhile (fun c => c ≠ '?' ∧ c ≠ '#')
            some (if path.isEmpty then "/" else ⟨path⟩)
        | _ => none
      else
        some ⟨r.takeWhile (fun c => c ≠ '?' ∧ c ≠ '#')⟩
  | _ => none

/-- `CleanupService.extractFilenameFromUrl(url)`.
`none` plays JS `null`: the guard `if (!url) return null` rejects a missing
or empty string; a string starting with `http` is parsed with `new URL` and
its `pathname` taken (the `catch` branch logs and returns `null` when the
constructor throws); otherwise the string itself is used; finally
`path.basename` is applied and `filename || null` turns `""` into `null`. -/
def extractFilenameFromUrl (url : Option String) : Option String :=
  match url with
  | none => none
  | some u =>
    if u = "" then none
    else if startsWithHttp u then
      match urlPathname u with
      | none => none
      | some p => if basename p = "" then none else some (basename p)
    else
      if basename u = "" then none else some (basename u)

/-! ## JS `Set<string>` as an insertion-ordered duplicate-free list -/

/-- JS `Set.prototype.add`: a no-op when the element is present, otherwise
appended (JS sets iterate in insertion order). -/
def setAdd (s : List String) (x : String) : List String :=
  if x ∈ s then s else s ++ [x]

/-! ## Database documents read by the Reference Scanner

Only the fields projected by the `Model.find` / `findOne` calls of
`getReferencedImages` are modelled; a field that may be absent, `null` or
empty is an `Option`. -/

/-- An element of a `media` array (`media.url` is the only field read). -/
structure MediaItem where
  url : Option String
deriving DecidableEq

/-- Projection `'imageUrl media'` of a Product document. -/
structure ProductDoc where
  imageUrl : Option String
  media : Option (List MediaItem)
deriving DecidableEq

/-- An image object holding a stored `filename`
(category `image`, app-settings `storeLogo` / `heroImage`). -/
structure ImageObj where
  filename : Option String
deriving DecidableEq

/-- Projection `'imageUrl image media'` of a Category document. -/
structure CategoryDoc where
  imageUrl : Option String
  image : Option ImageObj
  media : Option (List MediaItem)
deriving DecidableEq

/-- Projection `'logo'` of a Brand document (`logo.url` is read). -/
structure BrandDoc where
  logo : Option MediaItem
deriving DecidableEq

/-- Projection `'storeLogo heroImage'` of the AppSettings document. -/
structure AppSettingsDoc where
  storeLogo : Option ImageObj
  heroImage : Option ImageObj
deriving DecidableEq

/-- Projection `'avatarUrl'` of a User document. -/
structure UserDoc where
  avatarUrl : Option String
deriving DecidableEq

/-- Projection `'featuredImage media'` of a BlogPost document. -/
structure BlogPostDoc where
  featuredImage : Option String
  media : Option (List MediaItem)
deriving DecidableEq

/-- The collections `getReferencedImages` queries, in query order.
`appSettings` is a `findOne` result, hence at most one document. -/
structure Database where
  products : List ProductDoc
  categories : List CategoryDoc
  brands : List BrandDoc
  appSettings : Option AppSettingsDoc
  users : List UserDoc
  blogPosts : List BlogPostDoc
deriving DecidableEq

/-! ## Reference Scanner (`getReferencedImages`) -/

/-- The recurring statement shape
`if (x) { const filename = this.extractFilenameFromUrl(x); if (filename) referencedImages.add(filename); }`:
a truthy URL field is routed through the extractor and a non-null result
inserted. -/
def scanUrlField (acc : List String) (u : Option String) : List String :=
  match u with
  | none => acc
  | some s =>
    if s = "" then acc
    else
      match extractFilenameFromUrl (some s) with
      | some f => setAdd acc f
      | none => acc

/-- `if (doc.media && Array.isArray(doc.media)) doc.media.forEach(media => ...)`:
each `media.url` is routed through `scanUrlField`. -/
def scanMedia (acc : List String) (media : Option (List MediaItem)) : List String :=
  match media with
  | none => acc
  | some items => items.foldl (fun a m => scanUrlField a m.url) acc

/-- `if (obj && obj.filename) referencedImages.add(obj.filename)`: the stored
filename is inserted verbatim, with no extraction. -/
def scanFilenameField (acc : List String) (obj : Option ImageObj) : List String :=
  match obj with
  | none => acc
  | some img =>
    match img.filename with
    | none => acc
    | some f => if f = "" then acc else setAdd acc f

/-- Body of `products.forEach`: `imageUrl`, then the `media` array. -/
def scanProduct (acc : List String) (p : ProductDoc) : List String :=
  scanMedia (scanUrlField acc p.imageUrl) p.media

/-- Body of `categories.forEach`: `imageUrl`, then the verbatim
`image.filename`, then the `media` array. -/
def scanCategory (acc : List String) (c : CategoryDoc) : List String :=
  scanMedia (scanFilenameField (scanUrlField acc c.imageUrl) c.image) c.media

/-- Body of `brands.forEach`: `if (brand.logo && brand.logo.url) ...` through
the extractor. -/
def scanBrand (acc : List String) (b : BrandDoc) : List String :=
  match b.logo with
  | none => acc
  | some l => scanUrlField acc l.url

/-- The `appSettings` block: verbatim `storeLogo.filename`, then verbatim
`heroImage.filename`. -/
def scanAppSettings (acc : List String) (a : Option AppSettingsDoc) : List String :=
  match a with
  | none => acc
  | some s => scanFilenameField (scanFilenameField acc s.storeLogo) s.heroImage

/-- Body of `users.forEach`: `avatarUrl` through the extractor. -/
def scanUser (acc : List String) (u : UserDoc) : List String :=
  scanUrlField acc u.avatarUrl

/-- Body of `blogPosts.forEach`: `featuredImage`, then the `media` array. -/
def scanBlogPost (acc : List String) (b : BlogPostDoc) : List String :=
  scanMedia (scanUrlField acc b.featuredImage) b.media

/-- `CleanupService.getReferencedImages()` on a successfully-read database
state: the referenced-filename set accumulated over Products, Categories,
Brands, AppSettings, Users and BlogPosts, in source order. -/
def getReferencedImages (db : Database) : List String :=
  let s1 := db.products.foldl scanProduct []
  let s2 := db.categories.foldl scanCategory s1
  let s3 := db.brands.foldl scanBrand s2
  let s4 := scanAppSettings s3 db.appSettings
  let s5 := db.users.foldl scanUser s4
  db.blogPosts.foldl scanBlogPost s5

/-! ## Filesystem Enumerator (`getUploadedFiles`) -/

/-- `new Set(files.filter(file => file !== '.gitkeep'))` over the raw
`fs.readdir` listing. -/
def getUploadedFiles (listing : List String) : List String :=
  (listing.filter (fun file => file ≠ ".gitkeep")).foldl setAdd []

/-! ## Deletion Executor (`deleteOrphanedFiles`) -/

/-- Internal state of one `deleteOrphanedFiles` run: the `deletedCount`
counter and the `errors` array of `{ filename, error }` records. -/
structure DeleteRun where
  deletedCount : Nat
  errors : List (String × Err)
deriving DecidableEq

/-- One iteration of the `for (const filename of orphanedFiles)` loop:
`fs.unlink` succeeds and the counter is bumped, or the error is caught and
pushed onto `errors` — never propagated. -/
def deleteStep (unlink : String → Except Err Unit) (acc : DeleteRun)
    (filename : String) : DeleteRun :=
  match unlink filename with
  | Except.ok _ => { acc with deletedCount := acc.deletedCount + 1 }
  | Except.error e => { acc with errors := acc.errors ++ [(filename, e)] }

/-- `CleanupService.deleteOrphanedFiles(orphanedFiles)`, run over the
orphan set in iteration order, with the per-file `fs.unlink` outcomes
supplied by `unlink`. -/
def deleteOrphanedFiles (unlink : String → Except Err Unit)
    (orphanedFiles : List String) : DeleteRun :=
  orphanedFiles.foldl (deleteStep unlink) ⟨0, []⟩

/-- The value `deleteOrphanedFiles` actually returns to its caller:
`return deletedCount;` — a bare number (the `errors` array is only logged). -/
def deleteOrphanedFilesReturn (unlink : String → Except Err Unit)
    (orphanedFiles : List String) : Nat :=
  (deleteOrphanedFiles unlink orphanedFiles).deletedCount

/-! ## Cleanup Orchestrator (`performCleanup`) -/

/-- Log levels of the winston-style logger used throughout the service. -/
inductive LogLevel where
  | info
  | warn
  | error
deriving DecidableEq

/-- The external world one `performCleanup` run interacts with: the outcome
of `connectDB()`, of the database reads performed by `getReferencedImages`
(fail-fast: a model read either yields the whole state or rejects), of the
`fs.readdir` of the uploads directory, and of each individual `fs.unlink`. -/
structure RunEnv where
  connectDB : Except Err Unit
  database : Except Err Database
  dirListing : Except Err (List String)
  unlink : String → Except Err Unit

/-- `getReferencedImages()` as the orchestrator sees it: a database-read
failure is logged and rethrown (`catch ... throw error`), success yields the
scanned set. -/
def getReferencedImagesE (env : RunEnv) : Except Err (List String) :=
  match env.database with
  | Except.error e => Except.error e
  | Except.ok db => Except.ok (getReferencedImages db)

/-- `getUploadedFiles()` as the orchestrator sees it: an `fs.readdir`
failure is logged and rethrown, success yields the filtered set. -/
def getUploadedFilesE (env : RunEnv) : Except Err (List String) :=
  match env.dirListing with
  | Except.error e => Except.error e
  | Except.ok files => Except.ok (getUploadedFiles files)

/-- The `for (const file of uploadedFiles) if (!referencedImages.has(file)) orphanedFiles.add(file)`
loop of `performCleanup`. -/
def orphanedFilesLoop (uploadedFiles referencedImages : List String) : List String :=
  uploadedFiles.foldl
    (fun orphans file => if file ∈ referencedImages then orphans else setAdd orphans file) []

/-- The `try` block of `performCleanup`: connect, scan, enumerate, resolve
orphans, and — only when the orphan set is non-empty — run the deletion
executor. Yields the orphan set and the executor's run (`none` when the
deletion step was skipped). Any step's rejection aborts the block. -/
def cleanupBody (env : RunEnv) : Except Err (List String × Option DeleteRun) := do
  let _ ← env.connectDB
  let referencedImages ← getReferencedImagesE env
  let uploadedFiles ← getUploadedFilesE env
  let orphanedFiles := orphanedFilesLoop uploadedFiles referencedImages
  if orphanedFiles.length > 0 then
    return (orphanedFiles, some (deleteOrphanedFiles env.unlink orphanedFiles))
  else
    return (orphanedFiles, none)

/-- The run-lock state owned by the `CleanupService` singleton. -/
structure CleanupState where
  isRunning : Bool
deriving DecidableEq

/-- How one `performCleanup` call ended. -/
inductive RunOutcome where
  /-- The guard found `isRunning` true: warn and return. -/
  | skipped
  /-- The pipeline ran to completion. -/
  | completed (orphans : List String) (deletion : Option DeleteRun)
  /-- A pipeline step threw; the `catch` branch logged the error. -/
  | caught (e : Err)
deriving DecidableEq

/-- Everything observable when a `performCleanup` call settles: the
service's `isRunning` flag, how the run ended, and the claim-relevant log
lines (the guard's warning and the `catch` branch's error log; routine info
logging is not tracked). -/
structure CleanupResult where
  finalState : CleanupState
  outcome : RunOutcome
  logs : List (LogLevel × String)
deriving DecidableEq

/-- `CleanupService.performCleanup()`. The returned `Except` is the settled
promise: `Except.ok` is a normal resolution, `Except.error` would be a
rejection. The guard returns at once when `isRunning` is already true; the
`try/catch/finally` otherwise runs `cleanupBody`, logs a caught error
instead of rethrowing it, and resets `isRunning` on both paths. -/
def performCleanup (s : CleanupState) (env : RunEnv) : Except Err CleanupResult :=
  if s.isRunning then
    Except.ok
      { finalState := s
        outcome := RunOutcome.skipped
        logs := [(LogLevel.warn, "Cleanup service is already running, skipping...")] }
  else
    match cleanupBody env with
    | Except.ok (orphans, deletion) =>
      Except.ok
        { finalState := { isRunning := false }
          outcome := RunOutcome.completed orphans deletion
          logs := [] }
    | Except.error e =>
      Except.ok
        { finalState := { isRunning := false }
          outcome := RunOutcome.caught e
          logs := [(LogLevel.error, "Error during cleanup service:")] }

/-! ## Admin HTTP endpoints (`appSettings.ct.js`) -/

/-- The orphan-list loop of `getOrphanedFilesPreview`:
`const orphanedFiles = []; for (const file of uploadedFiles) if (!referencedImages.has(file)) orphanedFiles.push(file)`. -/
def previewOrphanList (uploadedFiles referencedImages : List String) : List String :=
  uploadedFiles.foldl
    (fun orphans file => if file ∈ referencedImages then orphans else orphans ++ [file]) []

/-- The `.catch(error => logger.error('Background cleanup failed:', error))`
handler `triggerManualCleanup` attaches to its fire-and-forget
`performCleanup()` call: it fires exactly when the promise rejects. -/
def backgroundCatchFired (s : CleanupState) (env : RunEnv) : Bool :=
  match performCleanup s env with
  | Except.ok _ => false
  | Except.error _ => true

/-! ## Auxiliary definitions used to state the claims -/

/-- Whether a settled promise resolved (`Except.ok`). -/
def exceptIsOk {ε α : Type} : Except ε α → Bool
  | Except.ok _ => true
  | Except.error _ => false

/-- The value a truthy `filename` field contributes verbatim (mirrors the
guard of `scanFilenameField`): `some f` exactly when the image object is
present with a non-empty stored filename. -/
def filenameVal (obj : Option ImageObj) : Option String :=
  match obj with
  | some img =>
    match img.filename with
    | some f => if f = "" then none else some f
    | none => none
  | none => none

/-- All filenames a database state contributes to the referenced set
verbatim (without going through the extractor): category `image.filename`
values plus app-settings `storeLogo.filename` / `heroImage.filename`. -/
def verbatimFilenames (db : Database) : List String :=
  db.categories.filterMap (fun c => filenameVal c.image) ++
    (match db.appSettings with
     | some s => (filenameVal s.storeLogo).toList ++ (filenameVal s.heroImage).toList
     | none => [])

/-! ## Helper lemmas -/

lemma mem_setAdd {s : List String} {x f : String} :
    f ∈ setAdd s x ↔ f ∈ s ∨ f = x := by
  unfold setAdd
  split
  · rename_i h
    constructor
    · exact Or.inl
    · rintro (hf | rfl)
      · exact hf
      · exact h
  · simp

/-- Membership after folding a set-building step over a list: an element is
either already in the accumulator or contributed by some list element. -/
lemma mem_foldl_step {α : Type} {step : List String → α → List String}
    {Q : α → String → Prop}
    (hstep : ∀ acc x f, f ∈ step acc x → f ∈ acc ∨ Q x f) :
    ∀ (l : List α) (acc : List String) (f : String),
      f ∈ l.foldl step acc → f ∈ acc ∨ ∃ x ∈ l, Q x f := by
  intro l
  induction l with
  | nil => intro acc f hf; exact Or.inl hf
  | cons a t ih =>
    intro acc f hf
    rcases ih (step acc a) f hf with h | ⟨x, hx, hq⟩
    · rcases hstep acc a f h with h' | hq
      · exact Or.inl h'
      · exact Or.inr ⟨a, List.mem_cons_self a t, hq⟩
    · exact Or.inr ⟨x, List.mem_cons_of_mem a hx, hq⟩

lemma basename_no_slash (s : String) : '/' ∉ (basename s).data := by
  unfold basename
  intro hmem
  have h1 : '/' ∈ List.takeWhile (fun c => c ≠ '/')
      ((((s.data.reverse.dropWhile (fun c => c = '/')).reverse).reverse)) := by
    simpa using List.mem_reverse.mp hmem
  have h2 := List.mem_takeWhile_imp h1
  simp at h2

lemma takeWhile_dropWhile_slash_nil (l : List Char) :
    (l.dropWhile (fun c => decide (c = '/'))).takeWhile (fun c => decide (c ≠ '/')) = []
      ↔ l.dropWhile (fun c => decide (c = '/')) = [] := by
  induction l with
  | nil => simp
  | cons a t ih =>
    by_cases h : a = '/'
    · simpa [List.dropWhile_cons, h] using ih
    · simp [List.dropWhile_cons, h, List.takeWhile_cons]

lemma basename_eq_empty_iff (s : String) :
    basename s = "" ↔ s.data.all (fun c => c = '/') = true := by
  unfold basename
  constructor
  · intro h
    have hl : ((((s.data.reverse.dropWhile (fun c => c = '/')).reverse).reverse).takeWhile
        (fun c => c ≠ '/')).reverse = [] := by
      simpa using congrArg String.data h
    rw [List.reverse_eq_nil_iff, List.reverse_reverse] at hl
    have hnil := (takeWhile_dropWhile_slash_nil s.data.reverse).mp (by simpa using hl)
    rw [List.dropWhile_eq_nil_iff] at hnil
    simp only [List.all_eq_true]
    intro c hc
    simpa using hnil c (List.mem_reverse.mpr hc)
  · intro h
    simp only [List.all_eq_true] at h
    have hnil : s.data.reverse.dropWhile (fun c => decide (c = '/')) = [] := by
      rw [List.dropWhile_eq_nil_iff]
      intro c hc
      simpa using h c (List.mem_reverse.mp hc)
    simp [hnil]

lemma extract_no_slash {u : Option String} {f : String}
    (h : extractFilenameFromUrl u = some f) : '/' ∉ f.data := by
  unfold extractFilenameFromUrl at h
  match u with
  | none => exact absurd h (by simp)
  | some s =>
    simp only at h
    split at h
    · exact absurd h (by simp)
    · split at h
      · split at h
        · exact absurd h (by simp)
        · split at h
          · exact absurd h (by simp)
          · rw [← (Option.some.injEq _ _).mp h]
            exact basename_no_slash _
      · split at h
        · exact absurd h (by simp)
        · rw [← (Option.some.injEq _ _).mp h]
          exact basename_no_slash _

lemma scanUrlField_mem {acc : List String} {u : Option String} {f : String}
    (h : f ∈ scanUrlField acc u) : f ∈ acc ∨ '/' ∉ f.data := by
  unfold scanUrlField at h
  match u with
  | none => exact Or.inl h
  | some s =>
    simp only at h
    split at h
    · exact Or.inl h
    · split at h
      · rename_i g hg
        rcases mem_setAdd.mp h with h' | rfl
        · exact Or.inl h'
        · exact Or.inr (extract_no_slash hg)
      · exact Or.inl h

lemma scanMedia_mem {acc : List String} {media : Option (List MediaItem)} {f : String}
    (h : f ∈ scanMedia acc media) : f ∈ acc ∨ '/' ∉ f.data := by
  unfold scanMedia at h
  match media with
  | none => exact Or.inl h
  | some items =>
    simp only at h
    rcases mem_foldl_step (Q := fun (_ : MediaItem) f => '/' ∉ f.data)
        (fun acc m f hf => scanUrlField_mem hf) items acc f h with h' | ⟨_, _, hq⟩
    · exact Or.inl h'
    · exact Or.inr hq

lemma scanFilenameField_mem {acc : List String} {obj : Option ImageObj} {f : String}
    (h : f ∈ scanFilenameField acc obj) : f ∈ acc ∨ filenameVal obj = some f := by
  match obj with
  | none => exact Or.inl h
  | some img =>
    cases hif : img.filename with
    | none =>
      simp only [scanFilenameField, hif] at h
      exact Or.inl h
    | some g =>
      by_cases hg : g = ""
      · simp only [scanFilenameField, hif, if_pos hg] at h
        exact Or.inl h
      · simp only [scanFilenameField, hif, if_neg hg] at h
        rcases mem_setAdd.mp h with h' | rfl
        · exact Or.inl h'
        · right
          simp [filenameVal, hif, hg]

lemma scanProduct_mem {acc : List String} {p : ProductDoc} {f : String}
    (h : f ∈ scanProduct acc p) : f ∈ acc ∨ '/' ∉ f.data := by
  unfold scanProduct at h
  rcases scanMedia_mem h with h' | hq
  · exact scanUrlField_mem h'
  · exact Or.inr hq

lemma scanCategory_mem {acc : List String} {c : CategoryDoc} {f : String}
    (h : f ∈ scanCategory acc c) :
    f ∈ acc ∨ '/' ∉ f.data ∨ filenameVal c.image = some f := by
  unfold scanCategory at h
  rcases scanMedia_mem h with h' | hq
  · rcases scanFilenameField_mem h' with h'' | hv
    · rcases scanUrlField_mem h'' with h3 | hq
      · exact Or.inl h3
      · exact Or.inr (Or.inl hq)
    · exact Or.inr (Or.inr hv)
  · exact Or.inr (Or.inl hq)

lemma scanBrand_mem {acc : List String} {b : BrandDoc} {f : String}
    (h : f ∈ scanBrand acc b) : f ∈ acc ∨ '/' ∉ f.data := by
  unfold scanBrand at h
  match b with
  | ⟨none⟩ => exact Or.inl h
  | ⟨some l⟩ => exact scanUrlField_mem h

lemma scanAppSettings_mem {acc : List String} {a : Option AppSettingsDoc} {f : String}
    (h : f ∈ scanAppSettings acc a) :
    f ∈ acc ∨ ∃ s, a = some s ∧
      (filenameVal s.storeLogo = some f ∨ filenameVal s.heroImage = some f) := by
  unfold scanAppSettings at h
  match a with
  | none => exact Or.inl h
  | some s =>
    rcases scanFilenameField_mem h with h' | hv
    · rcases scanFilenameField_mem h' with h'' | hv
      · exact Or.inl h''
      · exact Or.inr ⟨s, rfl, Or.inl hv⟩
    · exact Or.inr ⟨s, rfl, Or.inr hv⟩

lemma scanUser_mem {acc : List String} {u : UserDoc} {f : String}
    (h : f ∈ scanUser acc u) : f ∈ acc ∨ '/' ∉ f.data :=
  scanUrlField_mem h

lemma scanBlogPost_mem {acc : List String} {b : BlogPostDoc} {f : String}
    (h : f ∈ scanBlogPost acc b) : f ∈ acc ∨ '/' ∉ f.data := by
  unfold scanBlogPost at h
  rcases scanMedia_mem h with h' | hq
  · exact scanUrlField_mem h'
  · exact Or.inr hq

/-! ## Orphan-loop lemmas -/

lemma mem_orphanedFilesLoop_aux (referencedImages : List String) (f : String) :
    ∀ (uploadedFiles acc : List String),
      f ∈ uploadedFiles.foldl
          (fun orphans file =>
            if file ∈ referencedImages then orphans else setAdd orphans file) acc
        ↔ f ∈ acc ∨ (f ∈ uploadedFiles ∧ f ∉ referencedImages) := by
  intro uploadedFiles
  induction uploadedFiles with
  | nil => intro acc; simp
  | cons u t ih =>
    intro acc
    rw [List.foldl_cons, ih]
    by_cases hu : u ∈ referencedImages
    · simp only [if_pos hu]
      constructor
      · rintro (h | h)
        · exact Or.inl h
        · exact Or.inr ⟨List.mem_cons_of_mem u h.1, h.2⟩
      · rintro (h | ⟨hmem, hnr⟩)
        · exact Or.inl h
        · rcases List.mem_cons.mp hmem with rfl | hmem'
          · exact absurd hu hnr
          · exact Or.inr ⟨hmem', hnr⟩
    · simp only [if_neg hu]
      constructor
      · rintro (h | h)
        · rcases mem_setAdd.mp h with h' | rfl
          · exact Or.inl h'
          · exact Or.inr ⟨List.mem_cons_self _ _, hu⟩
        · exact Or.inr ⟨List.mem_cons_of_mem u h.1, h.2⟩
      · rintro (h | ⟨hmem, hnr⟩)
        · exact Or.inl (mem_setAdd.mpr (Or.inl h))
        · rcases List.mem_cons.mp hmem with rfl | hmem'
          · exact Or.inl (mem_setAdd.mpr (Or.inr rfl))
          · exact Or.inr ⟨hmem', hnr⟩

lemma mem_previewOrphanList_aux (referencedImages : List String) (f : String) :
    ∀ (uploadedFiles acc : List String),
      f ∈ uploadedFiles.foldl
          (fun orphans file =>
            if file ∈ referencedImages then orphans else orphans ++ [file]) acc
        ↔ f ∈ acc ∨ (f ∈ uploadedFiles ∧ f ∉ referencedImages) := by
  intro uploadedFiles
  induction uploadedFiles with
  | nil => intro acc; simp
  | cons u t ih =>
    intro acc
    rw [List.foldl_cons, ih]
    by_cases hu : u ∈ referencedImages
    · simp only [if_pos hu]
      constructor
      · rintro (h | h)
        · exact Or.inl h
        · exact Or.inr ⟨List.mem_cons_of_mem u h.1, h.2⟩
      · rintro (h | ⟨hmem, hnr⟩)
        · exact Or.inl h
        · rcases List.mem_cons.mp hmem with rfl | hmem'
          · exact absurd hu hnr
          · exact Or.inr ⟨hmem', hnr⟩
    · simp only [if_neg hu]
      constructor
      · rintro (h | h)
        · rcases List.mem_append.mp h with h' | h'
          · exact Or.inl h'
          · rcases List.mem_singleton.mp h' with rfl
            exact Or.inr ⟨List.mem_cons_self _ _, hu⟩
        · exact Or.inr ⟨List.mem_cons_of_mem u h.1, h.2⟩
      · rintro (h | ⟨hmem, hnr⟩)
        · exact Or.inl (List.mem_append.mpr (Or.inl h))
        · rcases List.mem_cons.mp hmem with rfl | hmem'
          · exact Or.inl (List.mem_append.mpr (Or.inr (List.mem_singleton.mpr rfl)))
          · exact Or.inr ⟨hmem', hnr⟩

/-! ## Deletion-executor lemmas -/

/-- What one `deleteOrphanedFiles` loop does to an arbitrary starting
accumulator: the counter grows by the number of successful `unlink`s and
the `errors` array is extended by one `{ filename, error }` record per
failing `unlink`, in order. -/
lemma deleteStep_foldl (unlink : String → Except Err Unit) :
    ∀ (l : List String) (acc : DeleteRun),
      (l.foldl (deleteStep unlink) acc).deletedCount
          = acc.deletedCount + (l.filter (fun f => exceptIsOk (unlink f))).length ∧
      (l.foldl (deleteStep unlink) acc).errors
          = acc.errors ++ l.filterMap (fun f =>
              match unlink f with
              | Except.ok _ => none
              | Except.error e => some (f, e)) := by
  intro l
  induction l with
  | nil => intro acc; simp
  | cons a t ih =>
    intro acc
    rw [List.foldl_cons]
    obtain ⟨ih1, ih2⟩ := ih (deleteStep unlink acc a)
    cases ha : unlink a with
    | ok v =>
      constructor
      · rw [ih1]
        simp [deleteStep, ha, exceptIsOk, List.filter_cons]
        omega
      · rw [ih2]
        simp [deleteStep, ha, List.filterMap_cons]
    | error e =>
      constructor
      · rw [ih1]
        simp [deleteStep, ha, exceptIsOk, List.filter_cons]
      · rw [ih2]
        simp [deleteStep, ha, List.filterMap_cons]

lemma length_filter_add_length_filter_not (p : String → Bool) (l : List String) :
    (l.filter p).length + (l.filter (fun f => !(p f))).length = l.length := by
  induction l with
  | nil => simp
  | cons a t ih =>
    by_cases ha : p a <;> simp [List.filter_cons, ha] <;> omega

lemma filterMap_fail_fst (unlink : String → Except Err Unit) (l : List String) :
    (l.filterMap (fun f =>
        match unlink f with
        | Except.ok _ => none
        | Except.error e => some (f, e))).map Prod.fst
      = l.filter (fun f => !(exceptIsOk (unlink f))) := by
  induction l with
  | nil => simp
  | cons a t ih =>
    cases ha : unlink a with
    | ok v => simp [List.filterMap_cons, List.filter_cons, ha, exceptIsOk, ih]
    | error e => simp [List.filterMap_cons, List.filter_cons, ha, exceptIsOk, ih]

lemma startsWithHttp_data {u : String} (h : startsWithHttp u = true) :
    ∃ t, u.data = 'h' :: 't' :: 't' :: 'p' :: t := by
  unfold startsWithHttp at h
  split at h
  · rename_i heq
    exact ⟨_, heq⟩
  · exact absurd h (by simp)

lemma startsWithHttp_all_slash_false {u : String} (h : startsWithHttp u = true) :
    u.data.all (fun c => c = '/') = false := by
  obtain ⟨t, ht⟩ := startsWithHttp_data h
  rw [ht]
  simp

/-! ## Concrete inputs used by counterexamples and witnesses -/

/-- An empty database state (no documents in any collection). -/
def emptyDb : Database :=
  { products := [], categories := [], brands := []
    appSettings := none, users := [], blogPosts := [] }

/-- A healthy run environment over an empty database and an empty uploads
directory. -/
def envFine : RunEnv :=
  { connectDB := Except.ok ()
    database := Except.ok emptyDb
    dirListing := Except.ok []
    unlink := fun _ => Except.ok () }

/-- A run environment where the database is unreachable: `connectDB()`
rejects (and so would every collection read). -/
def envDbDown : RunEnv :=
  { connectDB := Except.error "ECONNREFUSED"
    database := Except.error "ECONNREFUSED"
    dirListing := Except.ok []
    unlink := fun _ => Except.ok () }

/-- A run environment where the uploads directory cannot be read:
`fs.readdir` rejects. -/
def envDirUnreadable : RunEnv :=
  { connectDB := Except.ok ()
    database := Except.ok emptyDb
    dirListing := Except.error "EACCES: permission denied"
    unlink := fun _ => Except.ok () }

/-- `fs.unlink` outcomes where every deletion is denied. -/
def unlinkDenied : String → Except Err Unit :=
  fun _ => Except.error "EACCES: permission denied"

/-- `fs.unlink` outcomes where every deletion succeeds. -/
def unlinkFine : String → Except Err Unit :=
  fun _ => Except.ok ()

/-- A database state whose app-settings store logo records a relative path
rather than a bare filename. -/
def dbStoredPath : Database :=
  { products := [], categories := [], brands := []
    appSettings := some { storeLogo := some { filename := some "logos/a.png" }
                          heroImage := none }
    users := [], blogPosts := [] }

/-- A database state with a single product whose image URL is a
root-relative upload path. -/
def dbOneProduct : Database :=
  { products := [{ imageUrl := some "/uploads/a.jpg", media := none }]
    categories := [], brands := [], appSettings := none, users := [], blogPosts := [] }

/-! ## Claims -/

/-- C1: for every uploaded-file set U and referenced-file set R, the orphan
set computed by `performCleanup`'s loop and the list computed by the
preview endpoint's loop both contain exactly the members of U that are not
members of R — the set difference U \ R — and hence no element of either
result is in R. -/
theorem orphan_set_is_set_difference
    (uploadedFiles referencedImages : List String) (f : String) :
    (f ∈ orphanedFilesLoop uploadedFiles referencedImages
        ↔ f ∈ uploadedFiles ∧ f ∉ referencedImages) ∧
    (f ∈ previewOrphanList uploadedFiles referencedImages
        ↔ f ∈ uploadedFiles ∧ f ∉ referencedImages) := by
  constructor
  · unfold orphanedFilesLoop
    rw [mem_orphanedFilesLoop_aux]
    simp
  · unfold previewOrphanList
    rw [mem_previewOrphanList_aux]
    simp

/-- C2: whenever `performCleanup` actually starts a run (the run-lock was
clear at entry), the call settles normally and the `isRunning` flag is
false afterwards, regardless of whether the pipeline succeeded or any step
threw — the `finally` block resets it on every exit path. -/
theorem performCleanup_flag_reset (s : CleanupState) (env : RunEnv)
    (h : s.isRunning = false) :
    ∃ r, performCleanup s env = Except.ok r ∧ r.finalState.isRunning = false := by
  unfold performCleanup
  rw [h]
  simp only [Bool.false_eq_true, if_false]
  cases hb : cleanupBody env with
  | ok v =>
    obtain ⟨orphans, deletion⟩ := v
    exact ⟨_, rfl, rfl⟩
  | error e => exact ⟨_, rfl, rfl⟩

/-- Witness for C2: a concrete run over a healthy environment starts with
the flag clear and ends with the flag clear. -/
theorem performCleanup_flag_reset_witness :
    ({ isRunning := false } : CleanupState).isRunning = false ∧
    ∃ r, performCleanup { isRunning := false } envFine = Except.ok r ∧
      r.finalState.isRunning = false :=
  ⟨rfl, performCleanup_flag_reset { isRunning := false } envFine rfl⟩

/-- C3: a `performCleanup` call that finds the run-lock already held
resolves immediately after logging the warning: no exception, the state is
unchanged, and the result is a closed form independent of the environment —
none of the Scanner/Enumerator/Resolver/Deletion steps is consulted, and
nothing is queued or retried. -/
theorem performCleanup_mutual_exclusion (s : CleanupState) (env : RunEnv)
    (h : s.isRunning = true) :
    performCleanup s env = Except.ok
      { finalState := s
        outcome := RunOutcome.skipped
        logs := [(LogLevel.warn, "Cleanup service is already running, skipping...")] } := by
  unfold performCleanup
  rw [h]
  simp

/-- Witness for C3: a concrete second invocation while the flag is held. -/
theorem performCleanup_mutual_exclusion_witness :
    ({ isRunning := true } : CleanupState).isRunning = true ∧
    performCleanup { isRunning := true } envFine = Except.ok
      { finalState := { isRunning := true }
        outcome := RunOutcome.skipped
        logs := [(LogLevel.warn, "Cleanup service is already running, skipping...")] } :=
  ⟨rfl, performCleanup_mutual_exclusion { isRunning := true } envFine rfl⟩

/-- Counterexample to C4 as stated: with the database unreachable
(`connectDB()` rejects with `ECONNREFUSED`), `performCleanup` settles with
`Except.ok` — the error does NOT propagate to the caller; it is caught by
the orchestrator's own `catch`, logged at error level, and the call
resolves normally with state back at Idle. -/
theorem performCleanup_fatal_error_counterexample :
    performCleanup { isRunning := false } envDbDown = Except.ok
      { finalState := { isRunning := false }
        outcome := RunOutcome.caught "ECONNREFUSED"
        logs := [(LogLevel.error, "Error during cleanup service:")] } := rfl

/-- C4 (amended): when a configuration/connectivity-fatal error occurs —
the database is unreachable or the upload directory cannot be read — the
error is caught at the orchestrator boundary, logged at error level, and
the state is left at Idle; `performCleanup` settles normally instead of
propagating the error to its caller. -/
theorem performCleanup_fatal_error_caught (s : CleanupState) (env : RunEnv) (e : Err)
    (hs : s.isRunning = false)
    (h : env.connectDB = Except.error e ∨
         (env.connectDB = Except.ok () ∧ env.database = Except.error e) ∨
         (env.connectDB = Except.ok () ∧ (∃ db, env.database = Except.ok db) ∧
           env.dirListing = Except.error e)) :
    performCleanup s env = Except.ok
      { finalState := { isRunning := false }
        outcome := RunOutcome.caught e
        logs := [(LogLevel.error, "Error during cleanup service:")] } := by
  have hbody : cleanupBody env = Except.error e := by
    rcases h with h1 | ⟨h1, h2⟩ | ⟨h1, ⟨db, h2⟩, h3⟩
    · simp [cleanupBody, h1, Bind.bind, Except.bind]
    · simp [cleanupBody, h1, h2, getReferencedImagesE, Bind.bind, Except.bind]
    · simp [cleanupBody, h1, h2, h3, getReferencedImagesE, getUploadedFilesE,
        Bind.bind, Except.bind]
  unfold performCleanup
  rw [hs, hbody]
  simp

/-- Witness for C4 (amended): a concrete run with an unreadable uploads
directory is caught, logged, and settles normally at Idle. -/
theorem performCleanup_fatal_error_caught_witness :
    performCleanup { isRunning := false } envDirUnreadable = Except.ok
      { finalState := { isRunning := false }
        outcome := RunOutcome.caught "EACCES: permission denied"
        logs := [(LogLevel.error, "Error during cleanup service:")] } :=
  performCleanup_fatal_error_caught { isRunning := false } envDirUnreadable
    "EACCES: permission denied" rfl
    (Or.inr (Or.inr ⟨rfl, ⟨emptyDb, rfl⟩, rfl⟩))

/-- C5: the deletion executor attempts every file of the orphan set: each
per-file `fs.unlink` failure is caught and recorded in `errors` (the
recorded filenames are exactly the files whose deletion failed, in order),
and `deletedCount + errors.length` equals the size of the orphan set. -/
theorem deleteOrphanedFiles_partial_failure_isolation
    (unlink : String → Except Err Unit) (orphanedFiles : List String) :
    (deleteOrphanedFiles unlink orphanedFiles).deletedCount
        + (deleteOrphanedFiles unlink orphanedFiles).errors.length
      = orphanedFiles.length ∧
    (deleteOrphanedFiles unlink orphanedFiles).errors.map Prod.fst
      = orphanedFiles.filter (fun f => !(exceptIsOk (unlink f))) := by
  obtain ⟨h1, h2⟩ := deleteStep_foldl unlink orphanedFiles ⟨0, []⟩
  unfold deleteOrphanedFiles
  have hlen := congrArg List.length (filterMap_fail_fst unlink orphanedFiles)
  rw [List.length_map] at hlen
  constructor
  · rw [h1, h2]
    simp only [List.nil_append]
    have htotal := length_filter_add_length_filter_not
      (fun f => exceptIsOk (unlink f)) orphanedFiles
    omega
  · rw [h2]
    simp only [List.nil_append]
    exact filterMap_fail_fst unlink orphanedFiles

/-- Counterexample to C6 as stated: `deleteOrphanedFiles` returns only the
bare number `deletedCount`, not a `{ deletedCount, errors }` record — two
runs with different `errors` lists (one failed deletion vs. none at all)
produce identical return values, so a caller cannot inspect
`errors.length` from the returned value. -/
theorem deleteOrphanedFiles_return_counterexample :
    deleteOrphanedFilesReturn unlinkDenied ["a.jpg"]
        = deleteOrphanedFilesReturn unlinkFine [] ∧
    (deleteOrphanedFiles unlinkDenied ["a.jpg"]).errors
        ≠ (deleteOrphanedFiles unlinkFine []).errors := by
  constructor
  · rfl
  · decide

/-- C6 (amended): the deletion executor computes both a deletion counter
and a per-file `errors` list internally (logging a warning summary), but
returns only the number of successful deletions: its return value equals
the count of orphans whose `fs.unlink` succeeded, and carries no error
information. -/
theorem deleteOrphanedFiles_returns_count_only
    (unlink : String → Except Err Unit) (orphanedFiles : List String) :
    deleteOrphanedFilesReturn unlink orphanedFiles
      = (orphanedFiles.filter (fun f => exceptIsOk (unlink f))).length := by
  unfold deleteOrphanedFilesReturn deleteOrphanedFiles
  obtain ⟨h1, _⟩ := deleteStep_foldl unlink orphanedFiles ⟨0, []⟩
  rw [h1]
  simp

/-- Counterexample to C7 as stated: the non-empty input `"http"` starts
with `http`, so the extractor hands it to `new URL`, which throws
(`Invalid URL`); the `catch` branch returns `null` — it does NOT fall back
to treating the string as a plain path, whose basename would have been
`"http"`. -/
theorem extractFilename_no_fallback_counterexample :
    extractFilenameFromUrl (some "http") = none ∧
    basename "http" = "http" ∧ ("http" : String) ≠ "" := by
  refine ⟨by decide, by decide, by decide⟩

/-- C7 (amended): the extractor never throws, and it returns `null`
exactly when: the input has no non-separator character (empty string or
all `/`), or the input starts with `http` and URL parsing fails (no
plain-path fallback), or the input starts with `http` and the parsed
pathname has no non-separator character. -/
theorem extractFilename_none_characterization (u : String) :
    extractFilenameFromUrl (some u) = none ↔
      (u.data.all (fun c => c = '/') = true
       ∨ (startsWithHttp u = true ∧ urlPathname u = none)
       ∨ (startsWithHttp u = true ∧
            ∃ p, urlPathname u = some p ∧ p.data.all (fun c => c = '/') = true)) := by
  by_cases hu : u = ""
  · subst hu
    simp [extractFilenameFromUrl, startsWithHttp]
  · by_cases hh : startsWithHttp u = true
    · have hslash := startsWithHttp_all_slash_false hh
      cases hp : urlPathname u with
      | none => simp [extractFilenameFromUrl, hu, hh, hp, hslash]
      | some p =>
        by_cases hb : basename p = ""
        · simp [extractFilenameFromUrl, hu, hh, hp, hslash, hb]
          intro x hx
          simpa using List.all_eq_true.mp ((basename_eq_empty_iff p).mp hb) x hx
        · have hpall : p.data.all (fun c => c = '/') = false := by
            cases hcase : p.data.all (fun c => c = '/') with
            | true => exact absurd ((basename_eq_empty_iff p).mpr hcase) hb
            | false => rfl
          simp [extractFilenameFromUrl, hu, hh, hp, hslash, hb, hpall]
          by_contra hcon
          push_neg at hcon
          have hall : p.data.all (fun c => c = '/') = true :=
            List.all_eq_true.mpr (fun x hx => by simpa using hcon x hx)
          rw [hall] at hpall
          exact Bool.noConfusion hpall
    · have hhf : startsWithHttp u = false := by
        cases hcase : startsWithHttp u with
        | true => exact absurd hcase hh
        | false => rfl
      by_cases hb : basename u = ""
      · simp [extractFilenameFromUrl, hu, hhf, hb, (basename_eq_empty_iff u).mp hb]
      · have huall : u.data.all (fun c => c = '/') = false := by
          cases hcase : u.data.all (fun c => c = '/') with
          | true => exact absurd ((basename_eq_empty_iff u).mpr hcase) hb
          | false => rfl
        simp [extractFilenameFromUrl, hu, hhf, hb, huall]

/-- Counterexample to C8 as stated: on a database state whose app-settings
store-logo `filename` field stores `"logos/a.png"`, the Reference Scanner
inserts that value verbatim, so the referenced set contains an entry with a
path separator. -/
theorem referenced_set_separator_counterexample :
    "logos/a.png" ∈ getReferencedImages dbStoredPath ∧
    '/' ∈ ("logos/a.png" : String).data := by
  constructor
  · decide
  · decide

/-- C8 (amended): every entry of the referenced-filename set either
contains no path separator (entries derived through the extractor are
basenames) or was copied verbatim from a category image-object filename or
an app-settings store-logo/hero-image filename field — those fields are
inserted unnormalized, so the no-separator invariant holds only for the
extractor-derived entries. -/
theorem referenced_set_entries_no_slash_or_verbatim (db : Database) (f : String)
    (hf : f ∈ getReferencedImages db) :
    '/' ∉ f.data ∨ f ∈ verbatimFilenames db := by
  simp only [getReferencedImages] at hf
  rcases mem_foldl_step (Q := fun (_ : BlogPostDoc) g => '/' ∉ g.data)
      (fun _ _ _ hg => scanBlogPost_mem hg) db.blogPosts _ f hf with hf | ⟨_, _, hq⟩
  · rcases mem_foldl_step (Q := fun (_ : UserDoc) g => '/' ∉ g.data)
        (fun _ _ _ hg => scanUser_mem hg) db.users _ f hf with hf | ⟨_, _, hq⟩
    · rcases scanAppSettings_mem hf with hf | ⟨s, hs, hv⟩
      · rcases mem_foldl_step (Q := fun (_ : BrandDoc) g => '/' ∉ g.data)
            (fun _ _ _ hg => scanBrand_mem hg) db.brands _ f hf with hf | ⟨_, _, hq⟩
        · rcases mem_foldl_step
              (Q := fun (c : CategoryDoc) g => '/' ∉ g.data ∨ filenameVal c.image = some g)
              (fun _ _ _ hg => by
                rcases scanCategory_mem hg with h | h | h
                · exact Or.inl h
                · exact Or.inr (Or.inl h)
                · exact Or.inr (Or.inr h))
              db.categories _ f hf with hf | ⟨c, hc, hq | hq⟩
          · rcases mem_foldl_step (Q := fun (_ : ProductDoc) g => '/' ∉ g.data)
                (fun _ _ _ hg => scanProduct_mem hg) db.products _ f hf with hf | ⟨_, _, hq⟩
            · exact absurd hf (List.not_mem_nil f)
            · exact Or.inl hq
          · exact Or.inl hq
          · refine Or.inr (List.mem_append.mpr (Or.inl ?_))
            exact List.mem_filterMap.mpr ⟨c, hc, hq⟩
        · exact Or.inl hq
      · refine Or.inr (List.mem_append.mpr (Or.inr ?_))
        rw [hs]
        rcases hv with hv | hv
        · exact List.mem_append.mpr (Or.inl (by simp [hv]))
        · exact List.mem_append.mpr (Or.inr (by simp [hv]))
    · exact Or.inl hq
  · exact Or.inl hq

/-- Witness for C8 (amended): the entry `"a.jpg"` scanned from a concrete
one-product database satisfies the disjunction. -/
theorem referenced_set_entries_witness :
    '/' ∉ ("a.jpg" : String).data ∨ "a.jpg" ∈ verbatimFilenames dbOneProduct :=
  referenced_set_entries_no_slash_or_verbatim dbOneProduct "a.jpg" (by decide)

/-- C9: the extractor normalizes a full URL and a root-relative path
identically — both `https://cdn.example.com/uploads/photo.png` and
`/uploads/photo.png` extract to `photo.png`. -/
theorem extractFilename_normalizes_both_url_shapes :
    extractFilenameFromUrl (some "https://cdn.example.com/uploads/photo.png")
        = some "photo.png" ∧
    extractFilenameFromUrl (some "/uploads/photo.png") = some "photo.png" := by
  constructor
  · decide
  · decide

/-- C10: `performCleanup` never rejects — for every starting state and
every outcome of the database connection, scanner, enumerator and deletion
steps, the returned promise resolves normally (the whole pipeline body is
inside a `try/catch` whose `catch` only logs), so the `.catch` handler the
HTTP trigger endpoint attaches to its background call never fires. -/
theorem performCleanup_never_rejects (s : CleanupState) (env : RunEnv) :
    (∃ r, performCleanup s env = Except.ok r) ∧
    backgroundCatchFired s env = false := by
  have hok : ∃ r, performCleanup s env = Except.ok r := by
    unfold performCleanup
    split
    · exact ⟨_, rfl⟩
    · cases hb : cleanupBody env with
      | ok v =>
        obtain ⟨orphans, deletion⟩ := v
        exact ⟨_, rfl⟩
      | error e => exact ⟨_, rfl⟩
  obtain ⟨r, hr⟩ := hok
  refine ⟨⟨r, hr⟩, ?_⟩
  unfold backgroundCatchFired
  rw [hr]

end Cleanup
